import Mathlib

/-!
Shallow embedding of the `drf-caching` library (a response-caching decorator
for Django REST Framework views) and proofs about its key composition,
freshness derivation and header-writing logic.

Python strings are modelled as `List Char` (or Lean `String` where only
identity and ordering matter), integers as `Int`, fallible code as
`Except PyExn`, and the mutable cache backend as explicit state passing over
an association list.
-/

namespace DrfCaching

/-- Model of the Python values that appear as facet-mapping keys and values in
`drf_caching/keys.py`: strings (as character lists), integers, and `None`. -/
inductive PyVal where
  | pyStr (s : List Char)
  | pyInt (n : Int)
  | pyNone
deriving DecidableEq

/-- Exceptions the library can raise per `drf_caching/exceptions.py`, plus the
uncontrolled `TypeError`s reachable in `drf_caching/cache.py`:
`typeErrorUnexpectedKeyword c k` models calling a constructor of class `c`
with an unexpected keyword argument `k`, and `typeErrorNoneMembership` models
evaluating `"..." in None`. -/
inductive PyExn where
  | headerNotSupported (header reason : String)
  | typeErrorUnexpectedKeyword (cls kw : String)
  | typeErrorNoneMembership
  | invalidData (data : List (PyVal × PyVal))
  | unsupportedPaginator
  | invalidArgument (msg : String)
deriving DecidableEq

/-- Python `isinstance(v, str)` on a modelled value. -/
def isPyStr : PyVal → Bool
  | .pyStr _ => true
  | _ => false

/-- Python `str(v)` / f-string rendering of a modelled value, as used by
`f"{k}={v}"` in `BaseKey.get_key`. -/
def strOfPyVal : PyVal → List Char
  | .pyStr s => s
  | .pyInt n => (toString n).data
  | .pyNone => "None".data

/-- Python `"&".join(xs)` on character-list strings. -/
def joinAmp : List (List Char) → List Char
  | [] => []
  | [x] => x
  | x :: y :: t => x ++ '&' :: joinAmp (y :: t)

/-- What `"&".join` emits after its first item: nothing for a singleton,
otherwise a separator followed by the join of the rest. -/
def joinAmpTail : List (List Char) → List Char
  | [] => []
  | x :: t => '&' :: joinAmp (x :: t)

namespace BaseKey

/-- Embedding of `BaseKey._get_data_aux` (`drf_caching/keys.py:70-84`): the
strategy's facet mapping is returned unchanged, unless some key is not a
string, in which case `InvalidDataError(data)` is raised. The source raises at
the first non-string key of the iteration; the exception payload is the whole
mapping either way, so an `any` test is an equivalent rendering. -/
def get_data_aux (data : List (PyVal × PyVal)) : Except PyExn (List (PyVal × PyVal)) :=
  if data.any (fun p => ¬ isPyStr p.1) then .error (.invalidData data) else .ok data

/-- Embedding of `BaseKey.get_key` (`drf_caching/keys.py:29-56`):
`"&".join(f"{k}={v}" for k, v in self._get_data_aux(...).items())`. -/
def get_key (data : List (PyVal × PyVal)) : Except PyExn (List Char) :=
  (get_data_aux data).map
    (fun d => joinAmp (d.map (fun p => strOfPyVal p.1 ++ '=' :: strOfPyVal p.2)))

end BaseKey

/-- The view's paginator as dispatched on by `RequestPaginationKey._get_data`
(`drf_caching/keys.py:235-269`): one of the three supported DRF pagination
styles, carrying its query-parameter names, or any other object. -/
inductive Paginator where
  | pageNumber (pageParam pageSizeParam : String)
  | limitOffset (limitParam offsetParam : String)
  | cursor (cursorParam pageSizeParam : String)
  | unsupported
deriving DecidableEq

/-- Python `request.query_params.get(field)`: a present value is a string, an
absent one is `None`. -/
def optToPy : Option (List Char) → PyVal
  | some s => .pyStr s
  | none => .pyNone

namespace RequestPaginationKey

/-- Embedding of `RequestPaginationKey._get_data` (`drf_caching/keys.py:235-269`):
dispatch on the paginator class; an unsupported paginator raises
`UnsupportedPaginatorError`. `queryParams` models `request.query_params.get`. -/
def get_data (p : Paginator) (queryParams : String → Option (List Char)) :
    Except PyExn (List (PyVal × PyVal)) :=
  match p with
  | .pageNumber pp psp =>
      .ok [(.pyStr "page".data, optToPy (queryParams pp)),
           (.pyStr "page_size".data, optToPy (queryParams psp))]
  | .limitOffset lp op =>
      .ok [(.pyStr "limit".data, optToPy (queryParams lp)),
           (.pyStr "offset".data, optToPy (queryParams op))]
  | .cursor cp psp =>
      .ok [(.pyStr "cursor".data, optToPy (queryParams cp)),
           (.pyStr "page_size".data, optToPy (queryParams psp))]
  | .unsupported => .error .unsupportedPaginator

end RequestPaginationKey

/-- The supported cache backend classes, per the `isinstance` checks of
`CacheView._get_cache` and `CacheView._get_headers` in `drf_caching/cache.py`. -/
inductive Backend where
  | databaseCache
  | djangoRedisCache
  | dummyCache
  | fileBasedCache
  | locMemCache
  | pyLibMCCache
  | pyMemcacheCache
  | redisCache
deriving DecidableEq

/-- Membership in the `isinstance` tuple of `CacheView._get_headers`
(`drf_caching/cache.py:152-161`): the backends exposing no TTL/expiry
introspection, for which the age and expires headers are rejected. -/
def Backend.lacksTTL : Backend → Bool
  | .databaseCache | .dummyCache | .fileBasedCache
  | .pyLibMCCache | .pyMemcacheCache | .redisCache => true
  | .djangoRedisCache | .locMemCache => false

/-- Modelled from the spec: `drf_caching/utils.py` (the `NotGiven` sentinel)
and `drf_caching/sentinels.py` are not present under `src/`. Per spec section 9,
the sentinel is "a special marker value" disambiguating "argument not given"
from "explicitly None", so a Python timeout-position value is modelled as the
sentinel, `None`, an `int`, or any other object (used by the type check of
`CacheView._get_timeout`). -/
inductive TimeoutVal where
  | notGiven
  | pyNone
  | pyInt (n : Int)
  | otherObject
deriving DecidableEq

/-- Python `isinstance(timeout, int)` on a modelled timeout value. -/
def TimeoutVal.isInt : TimeoutVal → Bool
  | .pyInt _ => true
  | _ => false

/-- Python `isinstance(timeout, int) and timeout < 0` on a modelled value. -/
def TimeoutVal.isNegInt : TimeoutVal → Bool
  | .pyInt n => n < 0
  | _ => false

namespace CacheView

/-- Embedding of `CacheView._get_headers` (`drf_caching/cache.py:149-186`).

Every `raise HeaderNotSupportedError(...)` site in `_get_headers` passes the
positional argument `"age"`/`"expires"` and a `reason=` keyword, but
`HeaderNotSupportedError.__init__` (`drf_caching/exceptions.py:14-20`) has
signature `(self, cache, header)` and accepts no `reason` keyword, so each of
those `raise` statements actually raises
`TypeError: __init__() got an unexpected keyword argument 'reason'` while
constructing the exception; this is modelled as
`typeErrorUnexpectedKeyword "HeaderNotSupportedError" "reason"`.

When `HEADERS` is `None`, the first guard block is skipped (its condition
requires `HEADERS is not None`), but the second block's membership test
`"age" in self.settings.HEADERS` is evaluated on `None` whenever the timeout
argument or the `TIMEOUT` setting is `None`, raising
`TypeError: argument of type 'NoneType' is not iterable`
(`typeErrorNoneMembership`). -/
def get_headers (cache : Backend) (HEADERS : Option (List String))
    (timeout : TimeoutVal) (TIMEOUT : Option Int) :
    Except PyExn (Option (List String)) :=
  match HEADERS with
  | some hs =>
      if cache.lacksTTL ∧ "age" ∈ hs then
        .error (.typeErrorUnexpectedKeyword "HeaderNotSupportedError" "reason")
      else if cache.lacksTTL ∧ "expires" ∈ hs then
        .error (.typeErrorUnexpectedKeyword "HeaderNotSupportedError" "reason")
      else if (timeout = .pyNone ∨ TIMEOUT = none) ∧ "age" ∈ hs then
        .error (.typeErrorUnexpectedKeyword "HeaderNotSupportedError" "reason")
      else if (timeout = .pyNone ∨ TIMEOUT = none) ∧ "cache-control" ∈ hs then
        .error (.typeErrorUnexpectedKeyword "HeaderNotSupportedError" "reason")
      else .ok (some hs)
  | none =>
      if timeout = .pyNone ∨ TIMEOUT = none then .error .typeErrorNoneMembership
      else .ok none

/-- Embedding of `CacheView._get_timeout` (`drf_caching/cache.py:360-377`):
the first branch requires both the argument and the settings `TIMEOUT` to be
the `NotGiven` sentinel; then non-`None`, non-sentinel, non-`int` arguments
and negative integers are rejected; finally the settings value is used when
the argument was not given. -/
def get_timeout (TIMEOUT : TimeoutVal) (timeout : TimeoutVal) :
    Except PyExn TimeoutVal :=
  if timeout = .notGiven ∧ TIMEOUT = .notGiven then
    .error (.invalidArgument
      "timeout must be either defined in the settings or passed as an argument")
  else if timeout ≠ .pyNone ∧ timeout ≠ .notGiven ∧ ¬ timeout.isInt then
    .error (.invalidArgument "timeout must be either None or an integer")
  else if timeout.isNegInt then
    .error (.invalidArgument "timeout must be >= 0")
  else .ok (if timeout = .notGiven then TIMEOUT else timeout)

/-- Embedding of the age derivation of `CacheView._get_age`
(`drf_caching/cache.py:86-112`) for an integer configured timeout. `raw` is
the backend-reported raw age: `None` for the backends without introspection,
`timeout - ttl(key)` for django-redis, and the rounded expiry-bookkeeping
difference for the local-memory backend. The `match` models
`case 0: return 1`, `case self.timeout: return self.timeout - 1`,
`case _: return age`, in that order. -/
def get_age (timeout : Int) (raw : Option Int) : Option Int :=
  match raw with
  | some a => if a = 0 then some 1 else if a = timeout then some (timeout - 1) else some a
  | none => none

end CacheView

/-- How pydantic parses the `TIMEOUT` entry of the `DRF_CACHING` settings
dictionary into `Settings.TIMEOUT` (`drf_caching/settings.py:14-16,54-68`):
the field is declared `int | None = None`. -/
inductive TimeoutSetting where
  | absent
  | givenInt (n : Int)
  | givenNone
  | givenOther
deriving DecidableEq

/-- Errors escaping `CacheView._get_settings` when `Settings(**settings)`
fails: a pydantic `ValidationError` is re-raised as `InvalidSettingsError`
(`drf_caching/cache.py:343-358`); an exception of another type propagates
unwrapped. -/
inductive SettingsError where
  | invalidSettings
  | uncaughtTypeError
deriving DecidableEq

namespace Settings

/-- Embedding of pydantic validation of the `TIMEOUT` field
(`drf_caching/settings.py:14-16,54-68`): an absent field takes the default
`None` (validators do not run on defaults); an integer below 1 fails the
`validate_timeout` check (`ValueError` becomes a `ValidationError`); an
explicit `None` reaches `v < 1` and raises an uncaught `TypeError`; any value
outside `int | None` fails pydantic's type validation. No input parses to the
`NotGiven` sentinel, since the annotation admits only `int | None`. -/
def parseTIMEOUT : TimeoutSetting → Except SettingsError TimeoutVal
  | .absent => .ok .pyNone
  | .givenInt n => if n < 1 then .error .invalidSettings else .ok (.pyInt n)
  | .givenNone => .error .uncaughtTypeError
  | .givenOther => .error .invalidSettings

end Settings

/-- Python `s.lower()` restricted to the ASCII header names involved. -/
def lowerStr (s : String) : String := ⟨s.data.map Char.toLower⟩

/-- Django's `ResponseHeaders` mapping, modelled as an association list of
(header name, value) pairs with case-insensitive name matching. -/
abbrev HeadersMap := List (String × String)

/-- Case-insensitive `name in headers` on a `ResponseHeaders` mapping. -/
def hContains (h : HeadersMap) (k : String) : Bool :=
  h.any (fun p => lowerStr p.1 == lowerStr k)

/-- Case-insensitive `headers[name]` lookup on a `ResponseHeaders` mapping. -/
def hGet (h : HeadersMap) (k : String) : Option String :=
  (h.find? (fun p => lowerStr p.1 == lowerStr k)).map (·.2)

/-- Case-insensitive `headers[name] = value`: replaces an entry whose name
matches case-insensitively (django stores one entry per lowercased name),
otherwise appends; header values are coerced to strings by django. -/
def hSet (h : HeadersMap) (k v : String) : HeadersMap :=
  if hContains h k then
    h.map (fun p => if lowerStr p.1 == lowerStr k then (k, v) else p)
  else h ++ [(k, v)]

/-- The quadruple stored by `CacheView._get_response_from_view`
(`drf_caching/cache.py:327-336`): `(status_code, content, headers,
accepted_media_type)`; the same record also models the data of the
`HttpResponse`/`Response` returned to the client. -/
structure CachedEntry where
  status : Int
  content : List Char
  headers : HeadersMap
  mediaType : String
deriving DecidableEq

/-- The cache backend's key-value state, one entry per key. -/
abbrev CacheState := List (String × CachedEntry)

/-- Backend `cache.get(key)`: lookup by exact key. -/
def cacheGet (st : CacheState) (k : String) : Option CachedEntry :=
  (st.find? (fun p => p.1 == k)).map (·.2)

/-- Backend `cache.set(key, value, timeout)`: overwrite or insert; TTL
bookkeeping is the backend's own and is not part of the stored value. -/
def cacheSet (st : CacheState) (k : String) (e : CachedEntry) : CacheState :=
  if st.any (fun p => p.1 == k) then
    st.map (fun p => if p.1 == k then (k, e) else p)
  else st ++ [(k, e)]

/-- Python `f"max-age={self.timeout}"`: `None` renders as `"None"`. -/
def maxAgeValue (timeout : Option Int) : String :=
  "max-age=" ++ (match timeout with | some n => toString n | none => "None")

namespace CacheView

/-- The Age update of the hit path (`drf_caching/cache.py:254-258`): when
allow-listed and derivable, set `Age`. -/
def stampAge (hs : List String) (ageOf : Option Int) (h : HeadersMap) : HeadersMap :=
  if "age" ∈ hs then
    (match ageOf with | some a => hSet h "Age" (toString a) | none => h)
  else h

/-- The Cache-Control update of the hit path (`drf_caching/cache.py:260-261`):
set only when allow-listed and not already present. -/
def stampCacheControl (hs : List String) (timeout : Option Int) (h : HeadersMap) :
    HeadersMap :=
  if "cache-control" ∈ hs ∧ ¬ hContains h "cache-control" then
    hSet h "Cache-Control" (maxAgeValue timeout)
  else h

/-- The ETag update of the hit path (`drf_caching/cache.py:263-264`): the key
digest, set only when allow-listed and not already present. -/
def stampETag (hs : List String) (key : String) (h : HeadersMap) : HeadersMap :=
  if "etag" ∈ hs ∧ ¬ hContains h "etag" then hSet h "ETag" key else h

/-- The Expires update of the hit path (`drf_caching/cache.py:266-270`): set
only when allow-listed, not already present, and derivable. -/
def stampExpires (hs : List String) (expiresOf : Option String) (h : HeadersMap) :
    HeadersMap :=
  if "expires" ∈ hs ∧ ¬ hContains h "expires" then
    (match expiresOf with | some x => hSet h "Expires" x | none => h)
  else h

/-- The X-Cache update of the hit path (`drf_caching/cache.py:272-275`): set
to `HIT` exactly when allow-listed and the mapping lacks an x-cache entry or
holds the value `MISS`. -/
def stampXCache (hs : List String) (h : HeadersMap) : HeadersMap :=
  if "x-cache" ∈ hs ∧ (¬ hContains h "x-cache" ∨ hGet h "x-cache" = some "MISS") then
    hSet h "X-Cache" "HIT"
  else h

/-- The header updates of the hit path `CacheView._get_response_from_cache`
(`drf_caching/cache.py:254-275`), applied in source order to the header
mapping `h` retrieved from the cache: Age (when derivable), Cache-Control,
ETag and Expires only when not already present, and X-Cache set to `HIT`
exactly when absent or equal to `MISS`. -/
def stampHitHeaders (hs : List String) (timeout : Option Int) (ageOf : Option Int)
    (expiresOf : Option String) (key : String) (h : HeadersMap) : HeadersMap :=
  stampXCache hs
    (stampExpires hs expiresOf
      (stampETag hs key
        (stampCacheControl hs timeout
          (stampAge hs ageOf h))))

/-- Embedding of `CacheView._get_response_from_cache`
(`drf_caching/cache.py:246-298`). `allow` is `self.headers` (the configured
allow-list, possibly `None`); `ageOf`/`expiresOf` are the results of
`self._get_age(key)`/`self._get_expires(key)`. The first statement is
`if "age" in self.headers`, so a `None` allow-list raises
`TypeError: argument of type 'NoneType' is not iterable`. The
`accepted_media_type == "text/html"` branch rewrites only the body's debug
markup via BeautifulSoup, never the status, the headers or the cache state; it
is not modelled, and the body is returned unchanged. -/
def get_response_from_cache (allow : Option (List String)) (timeout : Option Int)
    (ageOf : Option Int) (expiresOf : Option String) (key : String)
    (e : CachedEntry) : Except PyExn CachedEntry :=
  match allow with
  | none => .error .typeErrorNoneMembership
  | some hs =>
      .ok { status := e.status, content := e.content,
            headers := stampHitHeaders hs timeout ageOf expiresOf key e.headers,
            mediaType := e.mediaType }

/-- The header updates of the miss path `CacheView._get_response_from_view`
(`drf_caching/cache.py:316-324`), applied in source order to the finalized
response's headers before it is stored: Age 0, Cache-Control and X-Cache
`MISS`, each when allow-listed. -/
def stampMissHeaders (hs : List String) (timeout : Option Int) (h : HeadersMap) :
    HeadersMap :=
  let h := if "age" ∈ hs then hSet h "Age" "0" else h
  let h := if "cache-control" ∈ hs then hSet h "Cache-Control" (maxAgeValue timeout) else h
  if "x-cache" ∈ hs then hSet h "X-Cache" "MISS" else h

/-- The response stored and returned by the miss path on a `status < 400`
response: the finalized response with the miss headers stamped. -/
def stampedMissResponse (hs : List String) (timeout : Option Int)
    (resp : CachedEntry) : CachedEntry :=
  { status := resp.status, content := resp.content,
    headers := stampMissHeaders hs timeout resp.headers,
    mediaType := resp.mediaType }

/-- Embedding of `CacheView._get_response_from_view`
(`drf_caching/cache.py:300-341`). `resp` is the view's finalized response;
on `status_code < 400` the Age/Cache-Control/X-Cache headers are stamped
(each guarded by membership in `self.headers`, which raises
`TypeError` when the allow-list is `None`), the response is rendered and
stored via `cache.set`; otherwise the response is only rendered. The returned
boolean records whether `cache.set` was invoked. -/
def get_response_from_view (allow : Option (List String)) (timeout : Option Int)
    (key : String) (resp : CachedEntry) (st : CacheState) :
    Except PyExn (CachedEntry × CacheState × Bool) :=
  if resp.status < 400 then
    match allow with
    | none => .error .typeErrorNoneMembership
    | some hs =>
        let r := stampedMissResponse hs timeout resp
        .ok (r, cacheSet st key r, true)
  else .ok (resp, st, false)

/-- Embedding of `CacheView._get_response` (`drf_caching/cache.py:219-244`)
after the cache key has been computed: dispatch on `cache.get(key)` between
the miss path (`_get_response_from_view`) and the hit path
(`_get_response_from_cache`). The boolean records whether `cache.set` was
invoked. -/
def get_response (allow : Option (List String)) (timeout : Option Int)
    (ageOf : Option Int) (expiresOf : Option String) (key : String)
    (viewResp : CachedEntry) (st : CacheState) :
    Except PyExn (CachedEntry × CacheState × Bool) :=
  match cacheGet st key with
  | none => get_response_from_view allow timeout key viewResp st
  | some e => (get_response_from_cache allow timeout ageOf expiresOf key e).map
      (fun r => (r, st, false))

/-- Embedding of `CacheView._get_response` including the key computation:
`key = self._get_key(...)` runs first and any exception it raises propagates
uncaught (there is no `try` in `_get_response`). -/
def get_response_top (allow : Option (List String)) (timeout : Option Int)
    (ageOf : Option Int) (expiresOf : Option String)
    (keyE : Except PyExn String) (viewResp : CachedEntry) (st : CacheState) :
    Except PyExn (CachedEntry × CacheState × Bool) :=
  keyE.bind (fun key => get_response allow timeout ageOf expiresOf key viewResp st)

/-- Observation: whether the backend `set` operation was invoked while
handling the request (`false` as well when the request died by exception
before reaching it). -/
def setWasCalled : Except PyExn (CachedEntry × CacheState × Bool) → Bool
  | .ok (_, _, b) => b
  | .error _ => false

/-- Observation: the backend state after the request; an exception leaves the
initial state `st` unchanged. -/
def finalState (st : CacheState) :
    Except PyExn (CachedEntry × CacheState × Bool) → CacheState
  | .ok (_, st', _) => st'
  | .error _ => st

/-- Observation: the headers of the response delivered to the client, `[]`
when the request died by exception. -/
def responseHeaders : Except PyExn (CachedEntry × CacheState × Bool) → HeadersMap
  | .ok (r, _, _) => r.headers
  | .error _ => []

/-- Observation: the headers of the `HttpResponse` built by the hit path,
`[]` when it died by exception. -/
def hitHeaders : Except PyExn CachedEntry → HeadersMap
  | .ok r => r.headers
  | .error _ => []

end CacheView

/-- Lowercase hexadecimal digit for `n < 16`. -/
def hexDigit (n : Nat) : Char :=
  if n < 10 then Char.ofNat ('0'.toNat + n) else Char.ofNat ('a'.toNat + n - 10)

/-- A JSON `\uXXXX` escape for a 16-bit code unit. -/
def uEscape (n : Nat) : List Char :=
  ['\\', 'u', hexDigit (n / 4096 % 16), hexDigit (n / 256 % 16),
   hexDigit (n / 16 % 16), hexDigit (n % 16)]

/-- Escaping of one character by `json.dumps` with its default
`ensure_ascii=True`: quote and backslash are backslash-escaped, the named
control escapes are used for backspace, tab, newline, form feed and carriage
return, every other character outside the printable ASCII range `0x20..0x7e`
becomes `\uXXXX` (as a surrogate pair beyond the basic plane). -/
def jsonEscapeChar (c : Char) : List Char :=
  if c = '"' then ['\\', '"']
  else if c = '\\' then ['\\', '\\']
  else if c = '\n' then ['\\', 'n']
  else if c = '\r' then ['\\', 'r']
  else if c = '\t' then ['\\', 't']
  else if c.toNat = 8 then ['\\', 'b']
  else if c.toNat = 12 then ['\\', 'f']
  else if 32 ≤ c.toNat ∧ c.toNat ≤ 126 then [c]
  else if c.toNat < 65536 then uEscape c.toNat
  else uEscape (55296 + (c.toNat - 65536) / 1024) ++ uEscape (56320 + (c.toNat - 65536) % 1024)

/-- JSON rendering of a string: a double-quoted, escaped character sequence. -/
def jsonString (s : List Char) : List Char :=
  '"' :: (s.map jsonEscapeChar).flatten ++ ['"']

/-- The `", "` item separator used by `json.dumps` between array elements and
object members. -/
def joinCommaSp : List (List Char) → List Char
  | [] => []
  | [x] => x
  | x :: y :: t => x ++ ',' :: ' ' :: joinCommaSp (y :: t)

/-- One step of `key_dict["keys"][key.__class__.__name__].append(...)`
(`drf_caching/cache.py:204-207`): append the strategy output `s` to the
`defaultdict(list)` bucket of class name `c`, creating the bucket on first
occurrence. -/
def bucketInsert (c : String) (s : List Char) :
    List (String × List (List Char)) → List (String × List (List Char))
  | [] => [(c, [s])]
  | (c', l) :: t => if c' = c then (c', l ++ [s]) :: t else (c', l) :: bucketInsert c s t

/-- The `"keys"` entry of `key_dict` after the loop of `CacheView._get_key`:
each configured strategy, taken in order, appends its output to the bucket of
its class name. -/
def buckets (ks : List (String × List Char)) : List (String × List (List Char)) :=
  ks.foldl (fun acc p => bucketInsert p.1 p.2 acc) []

/-- Comparison of bucket entries by class name, the order used by
`sort_keys=True`. -/
def keyLe (a b : String × List (List Char)) : Prop := a.1 ≤ b.1

/-- Strict comparison of bucket entries by class name. -/
def keyLt (a b : String × List (List Char)) : Prop := a.1 < b.1

instance : DecidableRel keyLe := fun a b => inferInstanceAs (Decidable (a.1 ≤ b.1))

instance : IsTotal (String × List (List Char)) keyLe := ⟨fun a b => le_total a.1 b.1⟩

instance : IsTrans (String × List (List Char)) keyLe :=
  ⟨fun _ _ _ h1 h2 => le_trans h1 h2⟩

instance : IsAntisymm (String × List (List Char)) keyLt :=
  ⟨fun _ _ h1 h2 => absurd h2 (not_lt.mpr (le_of_lt h1))⟩

/-- The `sort_keys=True` ordering of `json.dumps` applied to the bucket
mapping: entries sorted by class name. -/
def sortKeys (l : List (String × List (List Char))) : List (String × List (List Char)) :=
  l.insertionSort keyLe

/-- Lookup of a class name's bucket in the bucket association list, with `[]`
for an absent class. -/
def lookupList (c : String) : List (String × List (List Char)) → List (List Char)
  | [] => []
  | (c', l) :: t => if c' = c then l else lookupList c t

/-- The sequence of outputs contributed to the composed key by the strategies
of class `c`, in configuration order. -/
def perClass (ks : List (String × List Char)) (c : String) : List (List Char) :=
  (ks.filter (fun p => p.1 == c)).map (·.2)

/-- Decidable check that two strategy configurations agree class by class:
for every strategy class, both produce the same output sequence. Classes
occurring in neither configuration contribute the empty sequence on both
sides, so checking the classes that occur suffices. -/
def samePerClassB (ks1 ks2 : List (String × List Char)) : Bool :=
  ((ks1 ++ ks2).map (·.1)).all (fun c => perClass ks1 c == perClass ks2 c)

/-- Check that a string contains neither of the field separators `&` and `=`
used by `BaseKey.get_key`. -/
def sepFree (s : List Char) : Bool := s.all (fun c => !(c == '&' || c == '='))

/-- Check that a facet pair maps a separator-free string key to a
separator-free string value. -/
def cleanStrPair : PyVal × PyVal → Bool
  | (.pyStr k, .pyStr v) => sepFree k && sepFree v
  | _ => false

/-- JSON rendering of one bucket entry: `"ClassName": ["out1", "out2", ...]`. -/
def entryJson (p : String × List (List Char)) : List Char :=
  jsonString p.1.data ++ ':' :: ' ' :: '[' :: joinCommaSp (p.2.map jsonString) ++ [']']

/-- Embedding of `json.dumps(key_dict, sort_keys=True)` for the fixed shape of
`key_dict` built by `CacheView._get_key` (`drf_caching/cache.py:196-209`):
the keys `"format"`, `"keys"`, `"view_id"` in sorted order, the bucket
mapping's class names in sorted order, each bucket a JSON array of the
strategy outputs in configuration order. -/
def serializeKeyDict (viewId fmt : String) (ks : List (String × List Char)) : List Char :=
  "\x7b\"format\": ".data ++ jsonString fmt.data
    ++ ", \"keys\": \x7b".data
    ++ joinCommaSp ((sortKeys (buckets ks)).map entryJson)
    ++ "\x7d, \"view_id\": ".data ++ jsonString viewId.data ++ "\x7d".data

/-- UTF-8 encoding of one character, as performed by `str.encode()`. -/
def utf8Bytes (c : Char) : List Nat :=
  let n := c.toNat
  if n < 128 then [n]
  else if n < 2048 then [192 + n / 64, 128 + n % 64]
  else if n < 65536 then [224 + n / 4096, 128 + n / 64 % 64, 128 + n % 64]
  else [240 + n / 262144, 128 + n / 4096 % 64, 128 + n / 64 % 64, 128 + n % 64]

/-- Modulus for 32-bit machine arithmetic. -/
def M32 : Nat := 4294967296

/-- Left rotation of a 32-bit word by `s` bits. -/
def rotl32 (x s : Nat) : Nat := x * 2 ^ s % M32 + x / 2 ^ (32 - s)

/-- The 64 MD5 sine-derived round constants. -/
def md5K : List Nat :=
  [0xd76aa478, 0xe8c7b756, 0x242070db, 0xc1bdceee,
   0xf57c0faf, 0x4787c62a, 0xa8304613, 0xfd469501,
   0x698098d8, 0x8b44f7af, 0xffff5bb1, 0x895cd7be,
   0x6b901122, 0xfd987193, 0xa679438e, 0x49b40821,
   0xf61e2562, 0xc040b340, 0x265e5a51, 0xe9b6c7aa,
   0xd62f105d, 0x02441453, 0xd8a1e681, 0xe7d3fbc8,
   0x21e1cde6, 0xc33707d6, 0xf4d50d87, 0x455a14ed,
   0xa9e3e905, 0xfcefa3f8, 0x676f02d9, 0x8d2a4c8a,
   0xfffa3942, 0x8771f681, 0x6d9d6122, 0xfde5380c,
   0xa4beea44, 0x4bdecfa9, 0xf6bb4b60, 0xbebfbc70,
   0x289b7ec6, 0xeaa127fa, 0xd4ef3085, 0x04881d05,
   0xd9d4d039, 0xe6db99e5, 0x1fa27cf8, 0xc4ac5665,
   0xf4292244, 0x432aff97, 0xab9423a7, 0xfc93a039,
   0x655b59c3, 0x8f0ccc92, 0xffeff47d, 0x85845dd1,
   0x6fa87e4f, 0xfe2ce6e0, 0xa3014314, 0x4e0811a1,
   0xf7537e82, 0xbd3af235, 0x2ad7d2bb, 0xeb86d391]

/-- The 64 MD5 per-round left-rotation amounts. -/
def md5S : List Nat :=
  [7, 12, 17, 22, 7, 12, 17, 22, 7, 12, 17, 22, 7, 12, 17, 22,
   5, 9, 14, 20, 5, 9, 14, 20, 5, 9, 14, 20, 5, 9, 14, 20,
   4, 11, 16, 23, 4, 11, 16, 23, 4, 11, 16, 23, 4, 11, 16, 23,
   6, 10, 15, 21, 6, 10, 15, 21, 6, 10, 15, 21, 6, 10, 15, 21]

/-- MD5 message padding: a `0x80` byte, zero bytes up to 56 modulo 64, then
the original bit length as eight little-endian bytes (modulo `2^64`). -/
def md5Pad (msg : List Nat) : List Nat :=
  msg ++ 128 :: List.replicate ((119 - msg.length % 64) % 64) 0
    ++ (List.range 8).map (fun i => 8 * msg.length / 256 ^ i % 256)

/-- Split a byte sequence into 64-byte blocks. -/
def chunks64 : List Nat → List (List Nat)
  | [] => []
  | b :: t => (b :: t).take 64 :: chunks64 ((b :: t).drop 64)
termination_by l => l.length
decreasing_by
  simp only [List.length_drop, List.length_cons]
  omega

/-- Decode a 64-byte block into sixteen little-endian 32-bit words. -/
def chunkWords (b : List Nat) : List Nat :=
  (List.range 16).map (fun i =>
    b.getD (4 * i) 0 + 256 * b.getD (4 * i + 1) 0 + 65536 * b.getD (4 * i + 2) 0
      + 16777216 * b.getD (4 * i + 3) 0)

/-- The MD5 nonlinear function of round `i` (bitwise complement written as
subtraction from the all-ones 32-bit word). -/
def md5F (i b c d : Nat) : Nat :=
  if i < 16 then b &&& c ||| (M32 - 1 - b) &&& d
  else if i < 32 then d &&& b ||| (M32 - 1 - d) &&& c
  else if i < 48 then b ^^^ c ^^^ d
  else c ^^^ (b ||| (M32 - 1 - d))

/-- The MD5 message-word index of round `i`. -/
def md5G (i : Nat) : Nat :=
  if i < 16 then i
  else if i < 32 then (5 * i + 1) % 16
  else if i < 48 then (3 * i + 5) % 16
  else 7 * i % 16

/-- One MD5 round on the state `(a, b, c, d)` with message words `w`. -/
def md5Step (w : List Nat) (st : Nat × Nat × Nat × Nat) (i : Nat) :
    Nat × Nat × Nat × Nat :=
  let f := (md5F i st.2.1 st.2.2.1 st.2.2.2 + st.1 + md5K.getD i 0
    + w.getD (md5G i) 0) % M32
  (st.2.2.2, (st.2.1 + rotl32 f (md5S.getD i 0)) % M32, st.2.1, st.2.2.1)

/-- Process one 64-byte block: run the 64 rounds and add the result into the
running state, word-wise modulo `2^32`. -/
def md5Chunk (st : Nat × Nat × Nat × Nat) (block : List Nat) :
    Nat × Nat × Nat × Nat :=
  let r := (List.range 64).foldl (md5Step (chunkWords block)) st
  ((st.1 + r.1) % M32, (st.2.1 + r.2.1) % M32, (st.2.2.1 + r.2.2.1) % M32,
   (st.2.2.2 + r.2.2.2) % M32)

/-- Little-endian byte decomposition of a 32-bit word. -/
def wordLEBytes (w : Nat) : List Nat :=
  [w % 256, w / 256 % 256, w / 65536 % 256, w / 16777216 % 256]

/-- Two lowercase hexadecimal digits of a byte. -/
def hexByte (b : Nat) : List Char := [hexDigit (b / 16), hexDigit (b % 16)]

/-- Embedding of `hashlib.md5(s.encode()).hexdigest()`: UTF-8 encode, pad,
fold the compression function over the 64-byte blocks from the standard
initial state, and render the four state words as little-endian lowercase
hex. -/
def md5Hex (input : List Char) : String :=
  let padded := md5Pad ((input.map utf8Bytes).flatten)
  let r := (chunks64 padded).foldl md5Chunk
    (0x67452301, 0xefcdab89, 0x98badcfe, 0x10325476)
  ⟨(([r.1, r.2.1, r.2.2.1, r.2.2.2].map wordLEBytes).flatten.map hexByte).flatten⟩

namespace CacheView

/-- Embedding of `CacheView._get_key` (`drf_caching/cache.py:188-209`) given
the view identity `viewId` (`f"{module}.{qualname}"`), the negotiated
renderer format `fmt`, and the (class name, `get_key` output) pair of each
configured strategy in order: build the bucketed `key_dict`, serialize it
with sorted keys, and take the MD5 hex digest. -/
def get_key (viewId fmt : String) (ks : List (String × List Char)) : String :=
  md5Hex (serializeKeyDict viewId fmt ks)

/-- The strategy loop of `CacheView._get_key` when each strategy's
`key.get_key(...)` call may raise: the first exception aborts the loop and
propagates. -/
def collectStrategyOutputs :
    List (String × Except PyExn (List Char)) → Except PyExn (List (String × List Char))
  | [] => .ok []
  | (_, .error e) :: _ => .error e
  | (c, .ok s) :: t => (collectStrategyOutputs t).map (fun r => (c, s) :: r)

/-- Embedding of `CacheView._get_key` over fallible strategy outputs: every
strategy is invoked in order and the composed digest is produced only when
none of them raises. -/
def get_key_strategies (viewId fmt : String)
    (ss : List (String × Except PyExn (List Char))) : Except PyExn String :=
  (collectStrategyOutputs ss).map (fun ks => get_key viewId fmt ks)

end CacheView

/-! ### Helper lemmas on the separator-joined facet serialization -/

theorem joinAmp_cons (x : List Char) (xs : List (List Char)) :
    joinAmp (x :: xs) = x ++ joinAmpTail xs := by
  cases xs <;> simp [joinAmp, joinAmpTail]

theorem sepFree_amp {s : List Char} (h : sepFree s = true) : '&' ∉ s := by
  intro hm
  have := List.all_eq_true.mp h _ hm
  simp at this

theorem sepFree_eqs {s : List Char} (h : sepFree s = true) : '=' ∉ s := by
  intro hm
  have := List.all_eq_true.mp h _ hm
  simp at this

theorem splitAtSep {c : Char} :
    ∀ (a b x y : List Char), c ∉ a → c ∉ b → a ++ c :: x = b ++ c :: y →
      a = b ∧ x = y := by
  intro a
  induction a with
  | nil =>
    intro b x y _ hb h
    cases b with
    | nil => simpa using h
    | cons d b' =>
      simp only [List.nil_append, List.cons_append, List.cons.injEq] at h
      exact absurd (h.1 ▸ List.mem_cons_self d b') hb
  | cons d a' ih =>
    intro b x y ha hb h
    cases b with
    | nil =>
      simp only [List.cons_append, List.nil_append, List.cons.injEq] at h
      exact absurd (h.1.symm ▸ List.mem_cons_self d a') ha
    | cons e b' =>
      simp only [List.cons_append, List.cons.injEq] at h
      obtain ⟨hde, h'⟩ := h
      obtain ⟨h1, h2⟩ := ih b' x y (fun hm => ha (List.mem_cons_of_mem d hm))
        (fun hm => hb (List.mem_cons_of_mem e hm)) h'
      exact ⟨by rw [hde, h1], h2⟩

/-- Injectivity of the `k=v` / `&`-joined encoding on pairs of
separator-free strings. -/
theorem joinAmp_encode_inj :
    ∀ ps qs : List (List Char × List Char),
      (∀ p ∈ ps, sepFree p.1 = true ∧ sepFree p.2 = true) →
      (∀ q ∈ qs, sepFree q.1 = true ∧ sepFree q.2 = true) →
      joinAmp (ps.map (fun p => p.1 ++ '=' :: p.2)) =
        joinAmp (qs.map (fun p => p.1 ++ '=' :: p.2)) →
      ps = qs := by
  intro ps
  induction ps with
  | nil =>
    intro qs _ _ h
    cases qs with
    | nil => rfl
    | cons q t2 =>
      exfalso
      cases t2 <;> simp [joinAmp] at h
  | cons p t1 ih =>
    intro qs hp hq h
    cases qs with
    | nil =>
      exfalso
      cases t1 <;> simp [joinAmp] at h
    | cons q t2 =>
      simp only [List.map_cons] at h
      rw [joinAmp_cons, joinAmp_cons] at h
      simp only [List.append_assoc, List.cons_append] at h
      obtain ⟨hk, hrest⟩ := splitAtSep _ _ _ _
        (sepFree_eqs (hp p (List.mem_cons_self p t1)).1)
        (sepFree_eqs (hq q (List.mem_cons_self q t2)).1) h
      have hpv := sepFree_amp (hp p (List.mem_cons_self p t1)).2
      have hqv := sepFree_amp (hq q (List.mem_cons_self q t2)).2
      cases t1 with
      | nil =>
        cases t2 with
        | nil =>
          simp only [List.map_nil, joinAmpTail, List.append_nil] at hrest
          have : p = q := Prod.ext hk hrest
          rw [this]
        | cons b t2' =>
          exfalso
          simp only [List.map_nil, List.map_cons, joinAmpTail, List.append_nil] at hrest
          exact hpv (hrest ▸ List.mem_append_right _ (List.mem_cons_self _ _))
      | cons a t1' =>
        cases t2 with
        | nil =>
          exfalso
          simp only [List.map_nil, List.map_cons, joinAmpTail, List.append_nil] at hrest
          exact hqv (hrest ▸ List.mem_append_right _ (List.mem_cons_self _ _))
        | cons b t2' =>
          simp only [List.map_cons, joinAmpTail] at hrest
          obtain ⟨hv, htail⟩ := splitAtSep _ _ _ _ hpv hqv hrest
          have ht := ih (b :: t2')
            (fun r hr => hp r (List.mem_cons_of_mem p hr))
            (fun r hr => hq r (List.mem_cons_of_mem q hr))
            (by simpa [List.map_cons] using htail)
          rw [Prod.ext hk hv, ht]

theorem cleanStrPair_isStr {p : PyVal × PyVal} (h : cleanStrPair p = true) :
    isPyStr p.1 = true ∧ isPyStr p.2 = true := by
  obtain ⟨a, b⟩ := p
  cases a <;> cases b <;> simp_all [cleanStrPair, isPyStr]

theorem cleanStrPair_sepFree {p : PyVal × PyVal} (h : cleanStrPair p = true) :
    sepFree (strOfPyVal p.1) = true ∧ sepFree (strOfPyVal p.2) = true := by
  obtain ⟨a, b⟩ := p
  cases a <;> cases b <;> simp_all [cleanStrPair, strOfPyVal]

/-- Two facet mappings of string pairs with the same rendered character
lists are equal. -/
theorem strPairs_inj :
    ∀ d1 d2 : List (PyVal × PyVal),
      (∀ p ∈ d1, isPyStr p.1 = true ∧ isPyStr p.2 = true) →
      (∀ p ∈ d2, isPyStr p.1 = true ∧ isPyStr p.2 = true) →
      d1.map (fun p => (strOfPyVal p.1, strOfPyVal p.2)) =
        d2.map (fun p => (strOfPyVal p.1, strOfPyVal p.2)) →
      d1 = d2 := by
  intro d1
  induction d1 with
  | nil =>
    intro d2 _ _ h
    cases d2 with
    | nil => rfl
    | cons q t2 => simp at h
  | cons p t1 ih =>
    intro d2 h1 h2 h
    cases d2 with
    | nil => simp at h
    | cons q t2 =>
      simp only [List.map_cons, List.cons.injEq, Prod.mk.injEq] at h
      obtain ⟨⟨hk, hv⟩, ht⟩ := h
      obtain ⟨hp1, hp2⟩ := h1 p (List.mem_cons_self p t1)
      obtain ⟨hq1, hq2⟩ := h2 q (List.mem_cons_self q t2)
      obtain ⟨pa, pb⟩ := p
      obtain ⟨qa, qb⟩ := q
      cases pa <;> simp [isPyStr] at hp1
      cases pb <;> simp [isPyStr] at hp2
      cases qa <;> simp [isPyStr] at hq1
      cases qb <;> simp [isPyStr] at hq2
      simp only [strOfPyVal] at hk hv
      rw [hk, hv,
        ih t2 (fun r hr => h1 r (List.mem_cons_of_mem _ hr))
          (fun r hr => h2 r (List.mem_cons_of_mem _ hr)) ht]

/-- On a mapping of clean string pairs, `BaseKey.get_key` succeeds and
returns the `&`-joined `k=v` rendering. -/
theorem get_key_clean (d : List (PyVal × PyVal)) (hd : d.all cleanStrPair = true) :
    BaseKey.get_key d =
      .ok (joinAmp ((d.map (fun p => (strOfPyVal p.1, strOfPyVal p.2))).map
        (fun r => r.1 ++ '=' :: r.2))) := by
  have hstr : d.any (fun p => ¬ isPyStr p.1) = false := by
    rw [List.any_eq_false]
    intro p hp
    have := (cleanStrPair_isStr (List.all_eq_true.mp hd p hp)).1
    simp [this]
  unfold BaseKey.get_key BaseKey.get_data_aux
  rw [hstr]
  simp only [Except.map, List.map_map]
  rfl

/-- Claim C2, counterexample: the facet serialization of `BaseKey.get_key`
uses `&` and `=` as separators without escaping them, so the two distinct
mappings `\x7b"a": "1&b=2"\x7d` and `\x7b"a": "1", "b": "2"\x7d` (both
producible by, e.g., `RequestHeadersKey` from request header values)
serialize to the same string `a=1&b=2`, and hence to the same composed cache
key. -/
theorem claim_C2_counterexample :
    BaseKey.get_key [(PyVal.pyStr ['a'], PyVal.pyStr ['1', '&', 'b', '=', '2'])] =
      BaseKey.get_key [(PyVal.pyStr ['a'], PyVal.pyStr ['1']),
        (PyVal.pyStr ['b'], PyVal.pyStr ['2'])] ∧
    [(PyVal.pyStr ['a'], PyVal.pyStr ['1', '&', 'b', '=', '2'])] ≠
      [(PyVal.pyStr ['a'], PyVal.pyStr ['1']), (PyVal.pyStr ['b'], PyVal.pyStr ['2'])] :=
  ⟨rfl, by decide⟩

/-- Claim C2, amended: for facet mappings whose keys and values are strings
containing neither `&` nor `=`, the serialized key string of
`BaseKey.get_key` is injective — no two distinct such mappings concatenate
to the same string. (Unrestricted, the claim is false: see the
counterexample, where a value containing the separators collides with a
two-entry mapping.) -/
theorem claim_C2_separators_injective_on_clean (d1 d2 : List (PyVal × PyVal))
    (h1 : d1.all cleanStrPair = true) (h2 : d2.all cleanStrPair = true)
    (h : BaseKey.get_key d1 = BaseKey.get_key d2) : d1 = d2 := by
  rw [get_key_clean d1 h1, get_key_clean d2 h2] at h
  have hj := joinAmp_encode_inj _ _
    (fun r hr => by
      obtain ⟨p, hp, rfl⟩ := List.mem_map.mp hr
      exact cleanStrPair_sepFree (List.all_eq_true.mp h1 p hp))
    (fun r hr => by
      obtain ⟨p, hp, rfl⟩ := List.mem_map.mp hr
      exact cleanStrPair_sepFree (List.all_eq_true.mp h2 p hp))
    (Except.ok.inj h)
  exact strPairs_inj d1 d2
    (fun p hp => cleanStrPair_isStr (List.all_eq_true.mp h1 p hp))
    (fun p hp => cleanStrPair_isStr (List.all_eq_true.mp h2 p hp)) hj

/-- Witness for the amended claim C2 at a concrete clean mapping. -/
theorem claim_C2_separators_injective_on_clean_witness :
    ([(PyVal.pyStr ['a'], PyVal.pyStr ['1'])].all cleanStrPair = true) ∧
    BaseKey.get_key [(PyVal.pyStr ['a'], PyVal.pyStr ['1'])] =
      BaseKey.get_key [(PyVal.pyStr ['a'], PyVal.pyStr ['1'])] ∧
    [(PyVal.pyStr ['a'], PyVal.pyStr ['1'])] =
      [(PyVal.pyStr ['a'], PyVal.pyStr ['1'])] :=
  ⟨by decide, rfl,
    claim_C2_separators_injective_on_clean _ _ (by decide) (by decide) rfl⟩

/-! ### Helper lemmas on the bucketed key dictionary -/

theorem perClass_cons (a : String) (s : List Char) (t : List (String × List Char))
    (c : String) :
    perClass ((a, s) :: t) c = if a = c then s :: perClass t c else perClass t c := by
  by_cases h : a = c <;> simp [perClass, List.filter_cons, h]

theorem lookupList_insert (a : String) (s : List Char) :
    ∀ (b : List (String × List (List Char))) (c : String),
      lookupList c (bucketInsert a s b) =
        if a = c then lookupList c b ++ [s] else lookupList c b := by
  intro b
  induction b with
  | nil =>
    intro c
    by_cases h : a = c <;> simp [bucketInsert, lookupList, h]
  | cons p t ih =>
    intro c
    obtain ⟨c0, l0⟩ := p
    by_cases h0 : c0 = a
    · subst h0
      by_cases h : c0 = c <;> simp [bucketInsert, lookupList, h]
    · by_cases h1 : c0 = c
      · have ha : ¬ a = c := fun hac => h0 (h1.trans hac.symm)
        have ha' : ¬ c = a := fun hca => ha hca.symm
        simp [bucketInsert, lookupList, h0, h1, ha, ha']
      · simp [bucketInsert, lookupList, h0, h1, ih c]

theorem lookupList_buckets :
    ∀ (ks : List (String × List Char)) (acc : List (String × List (List Char)))
      (c : String),
      lookupList c (ks.foldl (fun b p => bucketInsert p.1 p.2 b) acc) =
        lookupList c acc ++ perClass ks c := by
  intro ks
  induction ks with
  | nil => intro acc c; simp [perClass]
  | cons p t ih =>
    intro acc c
    obtain ⟨a, s⟩ := p
    rw [List.foldl_cons, ih, lookupList_insert, perClass_cons]
    by_cases h : a = c <;> simp [h]

theorem mem_keys_insert (a : String) (s : List Char) :
    ∀ (b : List (String × List (List Char))) (c : String),
      c ∈ (bucketInsert a s b).map Prod.fst ↔ c ∈ b.map Prod.fst ∨ c = a := by
  intro b
  induction b with
  | nil => intro c; simp [bucketInsert]
  | cons p t ih =>
    intro c
    obtain ⟨c0, l0⟩ := p
    by_cases h0 : c0 = a
    · subst h0
      simp only [bucketInsert, if_pos rfl, List.map_cons, List.mem_cons]
      simp only [eq_self_iff_true, if_true, List.map_cons, List.mem_cons]
      tauto
    · simp only [bucketInsert, if_neg h0, List.map_cons, List.mem_cons, ih c]
      tauto

theorem mem_keys_buckets :
    ∀ (ks : List (String × List Char)) (acc : List (String × List (List Char)))
      (c : String),
      c ∈ (ks.foldl (fun b p => bucketInsert p.1 p.2 b) acc).map Prod.fst ↔
        c ∈ acc.map Prod.fst ∨ c ∈ ks.map Prod.fst := by
  intro ks
  induction ks with
  | nil => intro acc c; simp
  | cons p t ih =>
    intro acc c
    obtain ⟨a, s⟩ := p
    rw [List.foldl_cons, ih, mem_keys_insert]
    simp only [List.map_cons, List.mem_cons]
    tauto

theorem pairwise_insert (a : String) (s : List Char) :
    ∀ b : List (String × List (List Char)),
      b.Pairwise (fun p q => p.1 ≠ q.1) →
      (bucketInsert a s b).Pairwise (fun p q => p.1 ≠ q.1) := by
  intro b
  induction b with
  | nil => intro _; simp [bucketInsert]
  | cons p t ih =>
    intro hb
    obtain ⟨c0, l0⟩ := p
    rw [List.pairwise_cons] at hb
    obtain ⟨hhead, htail⟩ := hb
    by_cases h0 : c0 = a
    · simp only [bucketInsert, if_pos h0]
      rw [List.pairwise_cons]
      exact ⟨fun q hq => hhead q hq, htail⟩
    · simp only [bucketInsert, if_neg h0]
      rw [List.pairwise_cons]
      refine ⟨fun q hq => ?_, ih htail⟩
      have hq1 : q.1 ∈ (bucketInsert a s t).map Prod.fst := List.mem_map_of_mem Prod.fst hq
      rcases (mem_keys_insert a s t q.1).mp hq1 with hmem | heq
      · obtain ⟨r, hr, hrq⟩ := List.mem_map.mp hmem
        exact hrq ▸ hhead r hr
      · exact heq ▸ h0
    -- the relation compares only first components, so appending to a bucket
    -- keeps all constraints intact

theorem pairwise_buckets :
    ∀ (ks : List (String × List Char)) (acc : List (String × List (List Char))),
      acc.Pairwise (fun p q => p.1 ≠ q.1) →
      (ks.foldl (fun b p => bucketInsert p.1 p.2 b) acc).Pairwise
        (fun p q => p.1 ≠ q.1) := by
  intro ks
  induction ks with
  | nil => intro acc h; exact h
  | cons p t ih =>
    intro acc h
    rw [List.foldl_cons]
    exact ih _ (pairwise_insert p.1 p.2 acc h)

theorem mem_assoc_iff :
    ∀ b : List (String × List (List Char)),
      b.Pairwise (fun p q => p.1 ≠ q.1) →
      ∀ (c : String) (l : List (List Char)),
        ((c, l) ∈ b ↔ c ∈ b.map Prod.fst ∧ lookupList c b = l) := by
  intro b
  induction b with
  | nil => intro _ c l; simp [lookupList]
  | cons p t ih =>
    intro hb c l
    obtain ⟨c0, l0⟩ := p
    rw [List.pairwise_cons] at hb
    obtain ⟨hhead, htail⟩ := hb
    by_cases h : c0 = c
    · subst h
      constructor
      · intro hm
        rcases List.mem_cons.mp hm with heq | hmt
        · injection heq with h1 h2
          subst h2
          exact ⟨by simp, by simp [lookupList]⟩
        · exact absurd rfl (hhead (c0, l) hmt)
      · rintro ⟨_, hl⟩
        simp only [lookupList, if_pos rfl] at hl
        exact hl ▸ List.mem_cons_self _ _
    · have hlk : lookupList c ((c0, l0) :: t) = lookupList c t := by
        simp [lookupList, h]
      constructor
      · intro hm
        rcases List.mem_cons.mp hm with heq | hmt
        · injection heq with h1 _
          exact absurd h1.symm h
        · obtain ⟨hmem, hl⟩ := (ih htail c l).mp hmt
          exact ⟨by simp [hmem], by rw [hlk]; exact hl⟩
      · rintro ⟨hmem, hl⟩
        rw [hlk] at hl
        rw [List.map_cons] at hmem
        rcases List.mem_cons.mp hmem with heq | hmt
        · exact absurd heq.symm h
        · exact List.mem_cons_of_mem _ ((ih htail c l).mpr ⟨hmt, hl⟩)

theorem mem_fst_iff_perClass {ks : List (String × List Char)} {c : String} :
    c ∈ ks.map Prod.fst ↔ perClass ks c ≠ [] := by
  constructor
  · intro hm
    obtain ⟨p, hp, hfst⟩ := List.mem_map.mp hm
    have hpf : p ∈ ks.filter (fun p => p.1 == c) :=
      List.mem_filter.mpr ⟨hp, by simp [hfst]⟩
    simp only [perClass, ne_eq, List.map_eq_nil_iff]
    intro hnil
    rw [hnil] at hpf
    exact absurd hpf (List.not_mem_nil p)
  · intro hne
    by_contra hnm
    apply hne
    simp only [perClass, List.map_eq_nil_iff]
    apply List.filter_eq_nil_iff.mpr
    intro p hp
    simp only [beq_iff_eq]
    intro hfst
    exact hnm (hfst ▸ List.mem_map_of_mem Prod.fst hp)

theorem samePerClassB_spec {ks1 ks2 : List (String × List Char)}
    (h : samePerClassB ks1 ks2 = true) :
    ∀ c, perClass ks1 c = perClass ks2 c := by
  intro c
  by_cases h1 : c ∈ (ks1 ++ ks2).map (·.1)
  · have := List.all_eq_true.mp h c h1
    simpa using this
  · rw [List.map_append] at h1
    have e1 : perClass ks1 c = [] := by
      by_contra hne
      exact h1 (List.mem_append_left _ (mem_fst_iff_perClass.mpr hne))
    have e2 : perClass ks2 c = [] := by
      by_contra hne
      exact h1 (List.mem_append_right _ (mem_fst_iff_perClass.mpr hne))
    rw [e1, e2]

theorem buckets_perm {ks1 ks2 : List (String × List Char)}
    (h : ∀ c, perClass ks1 c = perClass ks2 c) : (buckets ks1).Perm (buckets ks2) := by
  have p1 : (buckets ks1).Pairwise (fun p q => p.1 ≠ q.1) :=
    pairwise_buckets ks1 [] List.Pairwise.nil
  have p2 : (buckets ks2).Pairwise (fun p q => p.1 ≠ q.1) :=
    pairwise_buckets ks2 [] List.Pairwise.nil
  have n1 : (buckets ks1).Nodup :=
    p1.imp (fun hne heq => hne (congrArg Prod.fst heq))
  have n2 : (buckets ks2).Nodup :=
    p2.imp (fun hne heq => hne (congrArg Prod.fst heq))
  rw [List.perm_ext_iff_of_nodup n1 n2]
  rintro ⟨c, l⟩
  rw [mem_assoc_iff _ p1 c l, mem_assoc_iff _ p2 c l]
  have m1 : c ∈ (buckets ks1).map Prod.fst ↔ c ∈ ks1.map Prod.fst := by
    have := mem_keys_buckets ks1 [] c
    simpa [buckets] using this
  have m2 : c ∈ (buckets ks2).map Prod.fst ↔ c ∈ ks2.map Prod.fst := by
    have := mem_keys_buckets ks2 [] c
    simpa [buckets] using this
  have l1 : lookupList c (buckets ks1) = perClass ks1 c := by
    have := lookupList_buckets ks1 [] c
    simpa [buckets, lookupList] using this
  have l2 : lookupList c (buckets ks2) = perClass ks2 c := by
    have := lookupList_buckets ks2 [] c
    simpa [buckets, lookupList] using this
  rw [m1, m2, l1, l2, mem_fst_iff_perClass, mem_fst_iff_perClass, h c]

theorem pairwise_lt_of_le_ne :
    ∀ l : List (String × List (List Char)),
      l.Pairwise keyLe → l.Pairwise (fun p q => p.1 ≠ q.1) → l.Pairwise keyLt := by
  intro l
  induction l with
  | nil => intro _ _; exact List.Pairwise.nil
  | cons p t ih =>
    intro hle hne
    rw [List.pairwise_cons] at hle hne ⊢
    exact ⟨fun q hq => lt_of_le_of_ne (hle.1 q hq) (hne.1 q hq), ih hle.2 hne.2⟩

theorem sortKeys_eq {b1 b2 : List (String × List (List Char))}
    (hperm : b1.Perm b2) (hp1 : b1.Pairwise (fun p q => p.1 ≠ q.1)) :
    sortKeys b1 = sortKeys b2 := by
  have hsymm : ∀ {x y : String × List (List Char)}, x.1 ≠ y.1 → y.1 ≠ x.1 :=
    fun hne heq => hne heq.symm
  have hp2 : b2.Pairwise (fun p q => p.1 ≠ q.1) := (hperm.pairwise_iff hsymm).mp hp1
  have q1 : (sortKeys b1).Pairwise (fun p q => p.1 ≠ q.1) :=
    ((List.perm_insertionSort keyLe b1).pairwise_iff hsymm).mpr hp1
  have q2 : (sortKeys b2).Pairwise (fun p q => p.1 ≠ q.1) :=
    ((List.perm_insertionSort keyLe b2).pairwise_iff hsymm).mpr hp2
  have lt1 : (sortKeys b1).Pairwise keyLt :=
    pairwise_lt_of_le_ne _ (List.sorted_insertionSort keyLe b1) q1
  have lt2 : (sortKeys b2).Pairwise keyLt :=
    pairwise_lt_of_le_ne _ (List.sorted_insertionSort keyLe b2) q2
  exact List.eq_of_perm_of_sorted
    ((List.perm_insertionSort keyLe b1).trans
      (hperm.trans (List.perm_insertionSort keyLe b2).symm)) lt1 lt2

/-- Claim C1: the composed cache key of `CacheView._get_key` is a pure
function of the view identity, the negotiated format, and the per-class
sequences of strategy outputs: two strategy configurations that agree class
by class (in particular, identical configurations, or configurations whose
strategies of different classes are interleaved in a different order) yield
byte-identical MD5 digest strings. -/
theorem claim_C1_key_deterministic_order_independent (viewId fmt : String)
    (ks1 ks2 : List (String × List Char)) (h : samePerClassB ks1 ks2 = true) :
    CacheView.get_key viewId fmt ks1 = CacheView.get_key viewId fmt ks2 := by
  have hpc := samePerClassB_spec h
  have hsk := sortKeys_eq (buckets_perm hpc) (pairwise_buckets ks1 [] List.Pairwise.nil)
  unfold CacheView.get_key serializeKeyDict
  rw [hsk]

/-- Witness for claim C1: two configurations with the classes `A` and `B`
interleaved in opposite orders compose to the same key. -/
theorem claim_C1_key_deterministic_order_independent_witness :
    samePerClassB [("A", ['x']), ("B", ['y'])] [("B", ['y']), ("A", ['x'])] = true ∧
    CacheView.get_key "app.views.V.get" "json" [("A", ['x']), ("B", ['y'])] =
      CacheView.get_key "app.views.V.get" "json" [("B", ['y']), ("A", ['x'])] :=
  ⟨by decide, claim_C1_key_deterministic_order_independent _ _ _ _ (by decide)⟩

/-- Claim C6: two key-strategy instances of the same class accumulate into
that class's list bucket, in configuration order, rather than one
overwriting the other; consequently the composed fingerprint differs from
the one an overwrite would produce, whatever the second instance's output:
the serialized key dictionary over both outputs never equals the one over the
second output alone. -/
theorem claim_C6_same_class_instances_accumulate (viewId fmt c : String)
    (s1 s2 : List Char) :
    buckets [(c, s1), (c, s2)] = [(c, [s1, s2])] ∧
    serializeKeyDict viewId fmt [(c, s1), (c, s2)] ≠
      serializeKeyDict viewId fmt [(c, s2)] := by
  have hb1 : buckets [(c, s1), (c, s2)] = [(c, [s1, s2])] := by
    simp [buckets, bucketInsert]
  have hb2 : buckets [(c, s2)] = [(c, [s2])] := by
    simp [buckets, bucketInsert]
  refine ⟨hb1, fun heq => ?_⟩
  rw [serializeKeyDict, serializeKeyDict, hb1, hb2] at heq
  have hlen := congrArg List.length heq
  simp only [sortKeys, List.insertionSort, List.orderedInsert, List.map_cons,
    List.map_nil, entryJson, joinCommaSp, jsonString, List.length_append,
    List.length_cons, List.length_nil] at hlen
  omega

/-- Claim C3, counterexample: with a configured timeout of 0, a raw age of 0
equals the timeout, yet `CacheView._get_age` returns 1 (the `case 0` arm
precedes `case self.timeout`), not `timeout - 1 = -1` as the claim requires. -/
theorem claim_C3_counterexample_timeout_zero :
    CacheView.get_age 0 (some 0) = some 1 ∧
    CacheView.get_age 0 (some 0) ≠ some (0 - 1) := by
  constructor
  · rfl
  · intro h
    simp [CacheView.get_age] at h

/-- Claim C3, amended: a backend-reported raw age of 0 always derives to 1;
a raw age equal to the configured timeout derives to `timeout - 1` provided
the timeout is nonzero (at timeout 0 the zero-age arm takes precedence and
returns 1, as the counterexample shows); and with timeout 60 every raw age
in `[0, 60]` derives to an age in `[1, 59]`, never 0 or 60. -/
theorem claim_C3_age_derivation_clamps (t : Int) (ht : t ≠ 0) :
    CacheView.get_age t (some 0) = some 1 ∧
    CacheView.get_age t (some t) = some (t - 1) ∧
    (∀ a r : Int, 0 ≤ a → a ≤ 60 → CacheView.get_age 60 (some a) = some r →
      1 ≤ r ∧ r ≤ 59) := by
  refine ⟨rfl, ?_, ?_⟩
  · simp [CacheView.get_age, ht]
  · intro a r h0 h60 hr
    unfold CacheView.get_age at hr
    by_cases ha0 : a = 0
    · simp [ha0] at hr
      omega
    · by_cases ha60 : a = (60 : Int)
      · simp [ha0, ha60] at hr
        omega
      · simp [ha0, ha60] at hr
        omega

/-- Witness for the amended claim C3 at timeout 60. -/
theorem claim_C3_age_derivation_clamps_witness :
    (60 : Int) ≠ 0 ∧ CacheView.get_age 60 (some 60) = some (60 - 1) :=
  ⟨by decide, (claim_C3_age_derivation_clamps 60 (by decide)).2.1⟩

/-! ### Helper lemmas on the header mapping and the backend state -/

theorem hGet_cons (p : String × String) (t : HeadersMap) (k : String) :
    hGet (p :: t) k =
      if lowerStr p.1 == lowerStr k then some p.2 else hGet t k := by
  cases hq : lowerStr p.1 == lowerStr k <;> simp [hGet, List.find?, hq]

theorem hContains_cons (p : String × String) (t : HeadersMap) (k : String) :
    hContains (p :: t) k = ((lowerStr p.1 == lowerStr k) || hContains t k) := by
  simp [hContains]

theorem cacheGet_cons (p : String × CachedEntry) (t : CacheState) (k : String) :
    cacheGet (p :: t) k = if p.1 == k then some p.2 else cacheGet t k := by
  cases hq : p.1 == k <;> simp [cacheGet, List.find?, hq]

theorem hGet_replace (k k' v : String) (hkk : lowerStr k = lowerStr k') :
    ∀ h : HeadersMap, hContains h k = true →
      hGet (h.map (fun p => if lowerStr p.1 == lowerStr k then (k, v) else p)) k' =
        some v := by
  intro h
  induction h with
  | nil => intro hc; simp [hContains] at hc
  | cons p t ih =>
    intro hc
    rw [hContains_cons, Bool.or_eq_true] at hc
    by_cases hp : (lowerStr p.1 == lowerStr k) = true
    · simp only [List.map_cons, if_pos hp, hGet_cons]
      have hkk' : (lowerStr k == lowerStr k') = true := by simp [hkk]
      simp [hkk']
    · have hct : hContains t k = true := hc.resolve_left hp
      have hpk' : ¬ (lowerStr p.1 == lowerStr k') = true := by
        rw [← hkk]; exact hp
      simp only [List.map_cons, if_neg hp, hGet_cons]
      simp only [Bool.not_eq_true] at hpk'
      simp only [hpk', Bool.false_eq_true, if_false]
      exact ih hct

theorem hGet_append_absent (k k' v : String) (hkk : lowerStr k = lowerStr k') :
    ∀ h : HeadersMap, hContains h k = false → hGet (h ++ [(k, v)]) k' = some v := by
  intro h
  induction h with
  | nil =>
    intro _
    rw [List.nil_append, hGet_cons]
    have hkk' : (lowerStr k == lowerStr k') = true := by simp [hkk]
    simp [hkk']
  | cons p t ih =>
    intro hc
    rw [hContains_cons, Bool.or_eq_false_iff] at hc
    have hpk' : (lowerStr p.1 == lowerStr k') = false := by rw [← hkk]; exact hc.1
    rw [List.cons_append, hGet_cons]
    simp [hpk', ih hc.2]

theorem hGet_hSet_ci (k k' v : String) (hkk : lowerStr k = lowerStr k')
    (h : HeadersMap) : hGet (hSet h k v) k' = some v := by
  unfold hSet
  by_cases hc : hContains h k
  · rw [if_pos hc]
    exact hGet_replace k k' v hkk h hc
  · rw [if_neg hc]
    exact hGet_append_absent k k' v hkk h (Bool.eq_false_iff.mpr hc)

theorem hGet_replace_other (k k' v : String) (hne : lowerStr k ≠ lowerStr k') :
    ∀ h : HeadersMap,
      hGet (h.map (fun p => if lowerStr p.1 == lowerStr k then (k, v) else p)) k' =
        hGet h k' := by
  intro h
  induction h with
  | nil => rfl
  | cons p t ih =>
    by_cases hp : (lowerStr p.1 == lowerStr k) = true
    · have hp1 : lowerStr p.1 = lowerStr k := by simpa using hp
      have hkk' : (lowerStr k == lowerStr k') = false := by simpa using hne
      have hpk' : (lowerStr p.1 == lowerStr k') = false := by
        rw [hp1]; exact hkk'
      simp only [List.map_cons, if_pos hp, hGet_cons, hkk', hpk']
      simpa using ih
    · simp only [List.map_cons, if_neg hp, hGet_cons]
      by_cases hq : (lowerStr p.1 == lowerStr k') = true
      · rw [if_pos hq, if_pos hq]
      · simp only [Bool.not_eq_true] at hq
        simp only [hq, Bool.false_eq_true, if_false]
        exact ih

theorem hGet_hSet_other (k k' v : String) (hne : lowerStr k ≠ lowerStr k')
    (h : HeadersMap) : hGet (hSet h k v) k' = hGet h k' := by
  unfold hSet
  by_cases hc : hContains h k
  · rw [if_pos hc]
    exact hGet_replace_other k k' v hne h
  · rw [if_neg hc]
    have hkk' : (lowerStr k == lowerStr k') = false := by simpa using hne
    induction h with
    | nil =>
      rw [List.nil_append, hGet_cons]
      simp [hkk', hGet]
    | cons p t ih =>
      rw [List.cons_append, hGet_cons, hGet_cons]
      by_cases hq : (lowerStr p.1 == lowerStr k') = true
      · simp [hq]
      · simp only [Bool.not_eq_true] at hq
        have hct : ¬ hContains t k = true := by
          intro hc'
          exact hc (by rw [hContains_cons, hc']; simp)
        simp [hq, ih hct]

theorem hContains_replace_other (k k' v : String) (hne : lowerStr k ≠ lowerStr k') :
    ∀ h : HeadersMap,
      hContains (h.map (fun p => if lowerStr p.1 == lowerStr k then (k, v) else p)) k' =
        hContains h k' := by
  intro h
  induction h with
  | nil => rfl
  | cons p t ih =>
    by_cases hp : (lowerStr p.1 == lowerStr k) = true
    · have hp1 : lowerStr p.1 = lowerStr k := by simpa using hp
      have hkk' : (lowerStr k == lowerStr k') = false := by simpa using hne
      have hpk' : (lowerStr p.1 == lowerStr k') = false := by
        rw [hp1]; exact hkk'
      simp only [List.map_cons, if_pos hp, hContains_cons, hkk', hpk']
      simpa using ih
    · simp only [List.map_cons, if_neg hp, hContains_cons, ih]

theorem hContains_hSet_other (k k' v : String) (hne : lowerStr k ≠ lowerStr k')
    (h : HeadersMap) : hContains (hSet h k v) k' = hContains h k' := by
  unfold hSet
  by_cases hc : hContains h k
  · rw [if_pos hc]
    exact hContains_replace_other k k' v hne h
  · rw [if_neg hc]
    have hkk' : (lowerStr k == lowerStr k') = false := by simpa using hne
    simp [hContains, List.any_append, hkk']

theorem cacheGet_replace (k : String) (e : CachedEntry) :
    ∀ st : CacheState, st.any (fun p => p.1 == k) = true →
      cacheGet (st.map (fun p => if p.1 == k then (k, e) else p)) k = some e := by
  intro st
  induction st with
  | nil => intro hc; simp at hc
  | cons p t ih =>
    intro hc
    rw [List.any_cons, Bool.or_eq_true] at hc
    by_cases hp : (p.1 == k) = true
    · simp only [List.map_cons, if_pos hp, cacheGet_cons]
      simp
    · have hct := hc.resolve_left hp
      simp only [Bool.not_eq_true] at hp
      simp only [List.map_cons, hp, Bool.false_eq_true, if_false, cacheGet_cons]
      exact ih hct

theorem cacheGet_append_absent (k : String) (e : CachedEntry) :
    ∀ st : CacheState, st.any (fun p => p.1 == k) = false →
      cacheGet (st ++ [(k, e)]) k = some e := by
  intro st
  induction st with
  | nil =>
    intro _
    rw [List.nil_append, cacheGet_cons]
    simp
  | cons p t ih =>
    intro hc
    rw [List.any_cons, Bool.or_eq_false_iff] at hc
    rw [List.cons_append, cacheGet_cons]
    simp [hc.1, ih hc.2]

theorem cacheGet_cacheSet (k : String) (e : CachedEntry) (st : CacheState) :
    cacheGet (cacheSet st k e) k = some e := by
  unfold cacheSet
  by_cases hc : st.any (fun p => p.1 == k)
  · rw [if_pos hc]
    exact cacheGet_replace k e st hc
  · rw [if_neg hc]
    exact cacheGet_append_absent k e st (Bool.eq_false_iff.mpr hc)

/-! ### The hit-path stamps do not disturb the x-cache entry -/

theorem stampAge_xcache (hs : List String) (ao : Option Int) (h : HeadersMap) :
    hGet (CacheView.stampAge hs ao h) "x-cache" = hGet h "x-cache" ∧
    hContains (CacheView.stampAge hs ao h) "x-cache" = hContains h "x-cache" := by
  unfold CacheView.stampAge
  by_cases ha : "age" ∈ hs
  · rw [if_pos ha]
    cases ao with
    | none => exact ⟨rfl, rfl⟩
    | some a =>
      exact ⟨hGet_hSet_other _ _ _ (by decide) h,
        hContains_hSet_other _ _ _ (by decide) h⟩
  · rw [if_neg ha]
    exact ⟨rfl, rfl⟩

theorem stampCacheControl_xcache (hs : List String) (timeout : Option Int)
    (h : HeadersMap) :
    hGet (CacheView.stampCacheControl hs timeout h) "x-cache" = hGet h "x-cache" ∧
    hContains (CacheView.stampCacheControl hs timeout h) "x-cache" =
      hContains h "x-cache" := by
  unfold CacheView.stampCacheControl
  by_cases hcc : "cache-control" ∈ hs ∧ ¬ hContains h "cache-control"
  · rw [if_pos hcc]
    exact ⟨hGet_hSet_other _ _ _ (by decide) h,
      hContains_hSet_other _ _ _ (by decide) h⟩
  · rw [if_neg hcc]
    exact ⟨rfl, rfl⟩

theorem stampETag_xcache (hs : List String) (key : String) (h : HeadersMap) :
    hGet (CacheView.stampETag hs key h) "x-cache" = hGet h "x-cache" ∧
    hContains (CacheView.stampETag hs key h) "x-cache" = hContains h "x-cache" := by
  unfold CacheView.stampETag
  by_cases he : "etag" ∈ hs ∧ ¬ hContains h "etag"
  · rw [if_pos he]
    exact ⟨hGet_hSet_other _ _ _ (by decide) h,
      hContains_hSet_other _ _ _ (by decide) h⟩
  · rw [if_neg he]
    exact ⟨rfl, rfl⟩

theorem stampExpires_xcache (hs : List String) (eo : Option String) (h : HeadersMap) :
    hGet (CacheView.stampExpires hs eo h) "x-cache" = hGet h "x-cache" ∧
    hContains (CacheView.stampExpires hs eo h) "x-cache" = hContains h "x-cache" := by
  unfold CacheView.stampExpires
  by_cases he : "expires" ∈ hs ∧ ¬ hContains h "expires"
  · rw [if_pos he]
    cases eo with
    | none => exact ⟨rfl, rfl⟩
    | some x =>
      exact ⟨hGet_hSet_other _ _ _ (by decide) h,
        hContains_hSet_other _ _ _ (by decide) h⟩
  · rw [if_neg he]
    exact ⟨rfl, rfl⟩

/-- The x-cache entry after the full hit-path stamping: `HIT` exactly when
the retrieved mapping lacked an x-cache entry or held `MISS`, the retrieved
value otherwise. -/
theorem stampHit_xcache (hs : List String) (timeout : Option Int) (ao : Option Int)
    (eo : Option String) (key : String) (h : HeadersMap) (hx : "x-cache" ∈ hs) :
    hGet (CacheView.stampHitHeaders hs timeout ao eo key h) "x-cache" =
      if ¬ hContains h "x-cache" ∨ hGet h "x-cache" = some "MISS" then some "HIT"
      else hGet h "x-cache" := by
  unfold CacheView.stampHitHeaders
  obtain ⟨g1, c1⟩ := stampAge_xcache hs ao h
  obtain ⟨g2, c2⟩ := stampCacheControl_xcache hs timeout (CacheView.stampAge hs ao h)
  obtain ⟨g3, c3⟩ := stampETag_xcache hs key
    (CacheView.stampCacheControl hs timeout (CacheView.stampAge hs ao h))
  obtain ⟨g4, c4⟩ := stampExpires_xcache hs eo
    (CacheView.stampETag hs key
      (CacheView.stampCacheControl hs timeout (CacheView.stampAge hs ao h)))
  have gg : hGet (CacheView.stampExpires hs eo
      (CacheView.stampETag hs key
        (CacheView.stampCacheControl hs timeout
          (CacheView.stampAge hs ao h)))) "x-cache" = hGet h "x-cache" := by
    rw [g4, g3, g2, g1]
  have cc : hContains (CacheView.stampExpires hs eo
      (CacheView.stampETag hs key
        (CacheView.stampCacheControl hs timeout
          (CacheView.stampAge hs ao h)))) "x-cache" = hContains h "x-cache" := by
    rw [c4, c3, c2, c1]
  unfold CacheView.stampXCache
  by_cases hcond : ¬ hContains h "x-cache" ∨ hGet h "x-cache" = some "MISS"
  · rw [if_pos ⟨hx, by rw [gg, cc]; exact hcond⟩, if_pos hcond]
    exact hGet_hSet_ci _ _ _ (by decide) _
  · rw [if_neg (fun hand => hcond (by rw [← gg, ← cc]; exact hand.2)), if_neg hcond]
    exact gg

/-- The x-cache entry after the miss-path stamping is `MISS` whenever the
header is allow-listed. -/
theorem stampMiss_xcache (hs : List String) (timeout : Option Int) (h : HeadersMap)
    (hx : "x-cache" ∈ hs) :
    hGet (CacheView.stampMissHeaders hs timeout h) "x-cache" = some "MISS" := by
  unfold CacheView.stampMissHeaders
  rw [if_pos hx]
  exact hGet_hSet_ci _ _ _ (by decide) _

/-- Claim C4: with a configured header allow-list, on a request whose key is
absent from the backend (so the view runs), the backend `set` operation is
invoked exactly when the finalized response's status is strictly below 400;
on a status of 400 or above the backend state is unchanged and the key is
still absent afterwards. -/
theorem claim_C4_store_iff_status_below_400 (hs : List String) (timeout : Option Int)
    (ao : Option Int) (eo : Option String) (key : String) (resp : CachedEntry)
    (st : CacheState) (hmiss : cacheGet st key = none) :
    CacheView.setWasCalled
        (CacheView.get_response (some hs) timeout ao eo key resp st) =
      decide (resp.status < 400) ∧
    (400 ≤ resp.status →
      CacheView.finalState st
          (CacheView.get_response (some hs) timeout ao eo key resp st) = st ∧
      cacheGet (CacheView.finalState st
          (CacheView.get_response (some hs) timeout ao eo key resp st)) key =
        none) := by
  simp only [CacheView.get_response, hmiss]
  simp only [CacheView.get_response_from_view]
  by_cases h : resp.status < 400
  · rw [if_pos h]
    exact ⟨by simp [CacheView.setWasCalled, h], fun h4 => absurd h (by omega)⟩
  · rw [if_neg h]
    exact ⟨by simp [CacheView.setWasCalled, h], fun _ => ⟨rfl, hmiss⟩⟩

/-- Witness for claim C4 at a finalized response with status 500: the set
operation is not invoked and the backend stays empty. -/
theorem claim_C4_store_iff_status_below_400_witness :
    cacheGet ([] : CacheState) "k" = none ∧
    CacheView.setWasCalled (CacheView.get_response (some ["x-cache"]) (some 60) none
      none "k" ⟨500, [], [], "application/json"⟩ []) =
      decide (((⟨500, [], [], "application/json"⟩ : CachedEntry)).status < 400) ∧
    CacheView.finalState [] (CacheView.get_response (some ["x-cache"]) (some 60) none
      none "k" ⟨500, [], [], "application/json"⟩ []) = [] ∧
    cacheGet (CacheView.finalState [] (CacheView.get_response (some ["x-cache"])
      (some 60) none none "k" ⟨500, [], [], "application/json"⟩ [])) "k" = none := by
  have h := claim_C4_store_iff_status_below_400 ["x-cache"] (some 60) none none "k"
    ⟨500, [], [], "application/json"⟩ [] rfl
  exact ⟨rfl, h.1, (h.2 (by decide)).1, (h.2 (by decide)).2⟩

/-- Claim C5: with the x-cache header allow-listed —
first, on a miss with a cacheable (status below 400) response, the delivered
response carries `X-Cache: MISS` and the stored entry is the stamped response,
whose headers carry `X-Cache: MISS`;
second, on a cache read, the returned response's x-cache entry is `HIT`
exactly when the cached header mapping lacks an x-cache entry or holds the
value `MISS`, and an already-present non-MISS value is returned unchanged;
third, starting from an empty backend, the first call for a key yields
`MISS` and the immediately following call with unchanged facets yields `HIT`. -/
theorem claim_C5_xcache_miss_then_hit (hs : List String) (timeout : Option Int)
    (ao : Option Int) (eo : Option String) (key : String) (hx : "x-cache" ∈ hs) :
    (∀ (resp : CachedEntry) (st : CacheState), resp.status < 400 →
      cacheGet st key = none →
      hGet (CacheView.responseHeaders
        (CacheView.get_response (some hs) timeout ao eo key resp st)) "x-cache" =
          some "MISS" ∧
      cacheGet (CacheView.finalState st
          (CacheView.get_response (some hs) timeout ao eo key resp st)) key =
        some (CacheView.stampedMissResponse hs timeout resp) ∧
      hGet (CacheView.stampedMissResponse hs timeout resp).headers "x-cache" =
        some "MISS") ∧
    (∀ e : CachedEntry,
      hGet (CacheView.hitHeaders
        (CacheView.get_response_from_cache (some hs) timeout ao eo key e))
          "x-cache" =
        if ¬ hContains e.headers "x-cache" ∨ hGet e.headers "x-cache" = some "MISS"
        then some "HIT" else hGet e.headers "x-cache") ∧
    (∀ resp : CachedEntry, resp.status < 400 →
      hGet (CacheView.responseHeaders
        (CacheView.get_response (some hs) timeout ao eo key resp [])) "x-cache" =
        some "MISS" ∧
      hGet (CacheView.responseHeaders
        (CacheView.get_response (some hs) timeout ao eo key resp
          (CacheView.finalState []
            (CacheView.get_response (some hs) timeout ao eo key resp []))))
        "x-cache" = some "HIT") := by
  have partA : ∀ (resp : CachedEntry) (st : CacheState), resp.status < 400 →
      cacheGet st key = none →
      hGet (CacheView.responseHeaders
        (CacheView.get_response (some hs) timeout ao eo key resp st)) "x-cache" =
          some "MISS" ∧
      cacheGet (CacheView.finalState st
          (CacheView.get_response (some hs) timeout ao eo key resp st)) key =
        some (CacheView.stampedMissResponse hs timeout resp) ∧
      hGet (CacheView.stampedMissResponse hs timeout resp).headers "x-cache" =
        some "MISS" := by
    intro resp st hstatus hmiss
    simp only [CacheView.get_response, hmiss]
    simp only [CacheView.get_response_from_view, if_pos hstatus]
    refine ⟨?_, ?_, ?_⟩
    · simp only [CacheView.responseHeaders, CacheView.stampedMissResponse]
      exact stampMiss_xcache hs timeout resp.headers hx
    · simp only [CacheView.finalState]
      exact cacheGet_cacheSet key _ st
    · simp only [CacheView.stampedMissResponse]
      exact stampMiss_xcache hs timeout resp.headers hx
  have partB : ∀ e : CachedEntry,
      hGet (CacheView.hitHeaders
        (CacheView.get_response_from_cache (some hs) timeout ao eo key e))
          "x-cache" =
        if ¬ hContains e.headers "x-cache" ∨ hGet e.headers "x-cache" = some "MISS"
        then some "HIT" else hGet e.headers "x-cache" := by
    intro e
    simp only [CacheView.get_response_from_cache, CacheView.hitHeaders]
    exact stampHit_xcache hs timeout ao eo key e.headers hx
  refine ⟨partA, partB, ?_⟩
  intro resp hstatus
  obtain ⟨m1, m2, m3⟩ := partA resp [] hstatus rfl
  refine ⟨m1, ?_⟩
  generalize hst1 : CacheView.finalState []
    (CacheView.get_response (some hs) timeout ao eo key resp []) = st1 at m2 ⊢
  simp only [CacheView.get_response, m2]
  simp only [CacheView.get_response_from_cache, Except.map, CacheView.responseHeaders]
  rw [stampHit_xcache hs timeout ao eo key _ hx]
  rw [if_pos (Or.inr m3)]

/-- Witness for claim C5 on a concrete miss followed by a hit. -/
theorem claim_C5_xcache_miss_then_hit_witness :
    ("x-cache" ∈ ["x-cache"]) ∧
    ((⟨200, [], [], "application/json"⟩ : CachedEntry).status < 400) ∧
    hGet (CacheView.responseHeaders (CacheView.get_response (some ["x-cache"])
      (some 60) none none "k" ⟨200, [], [], "application/json"⟩ [])) "x-cache" =
      some "MISS" ∧
    hGet (CacheView.responseHeaders (CacheView.get_response (some ["x-cache"])
      (some 60) none none "k" ⟨200, [], [], "application/json"⟩
      (CacheView.finalState [] (CacheView.get_response (some ["x-cache"]) (some 60)
        none none "k" ⟨200, [], [], "application/json"⟩ [])))) "x-cache" =
      some "HIT" := by
  have h := (claim_C5_xcache_miss_then_hit ["x-cache"] (some 60) none none "k"
    (by decide)).2.2 ⟨200, [], [], "application/json"⟩ (by decide)
  exact ⟨by decide, by decide, h.1, h.2⟩

/-- Claim C7, code evaluation at the failing configuration: with the `age`
header allow-listed and a backend without TTL introspection (here
`RedisCache`), constructing the decorator does fail at configuration time
inside `_get_headers` — but with an uncontrolled `TypeError`, because the
raise site passes `HeaderNotSupportedError("age", reason=...)` while
`HeaderNotSupportedError.__init__` (`drf_caching/exceptions.py:14-20`) has
signature `(self, cache, header)` and accepts no `reason` keyword — and not
with the promised header-not-supported error. -/
theorem claim_C7_age_header_rejection_raises_typeerror :
    CacheView.get_headers .redisCache (some ["age"]) .notGiven (some 60) =
      .error (.typeErrorUnexpectedKeyword "HeaderNotSupportedError" "reason") ∧
    (.error (.typeErrorUnexpectedKeyword "HeaderNotSupportedError" "reason") :
        Except PyExn (Option (List String))) ≠
      .error (.headerNotSupported "age" "RedisCache does not implement it") := by
  constructor
  · rfl
  · intro h
    simp at h

/-- Claim C8: a facet mapping containing a non-string key makes
`_get_data_aux` raise `InvalidDataError` with the mapping as payload; an
unsupported paginator makes `RequestPaginationKey._get_data` raise
`UnsupportedPaginatorError`; and such an exception raised by a strategy
propagates uncaught through the per-request key computation
(`CacheView._get_key`) and through `_get_response`, with no retry and
nothing swallowed. -/
theorem claim_C8_data_errors_propagate_uncaught :
    (∀ data : List (PyVal × PyVal), ∀ p ∈ data, isPyStr p.1 = false →
      BaseKey.get_data_aux data = .error (.invalidData data)) ∧
    (∀ qp : String → Option (List Char),
      RequestPaginationKey.get_data .unsupported qp = .error .unsupportedPaginator) ∧
    (∀ (viewId fmt : String) (c : String) (data : List (PyVal × PyVal))
      (rest : List (String × Except PyExn (List Char))) (e : PyExn),
      BaseKey.get_key data = .error e →
      CacheView.get_key_strategies viewId fmt ((c, BaseKey.get_key data) :: rest) =
        .error e) ∧
    (∀ (allow : Option (List String)) (timeout ao : Option Int) (eo : Option String)
      (e : PyExn) (viewResp : CachedEntry) (st : CacheState),
      CacheView.get_response_top allow timeout ao eo (.error e) viewResp st =
        .error e) := by
  refine ⟨?_, fun _ => rfl, ?_, fun _ _ _ _ _ _ _ => rfl⟩
  · intro data p hp hstr
    unfold BaseKey.get_data_aux
    rw [if_pos]
    exact List.any_eq_true.mpr ⟨p, hp, by simp [hstr]⟩
  · intro viewId fmt c data rest e h
    rw [h]
    rfl

/-- Witness for claim C8 at a mapping with the non-string key `None` and at
an unsupported paginator. -/
theorem claim_C8_data_errors_propagate_uncaught_witness :
    (PyVal.pyNone, PyVal.pyNone) ∈ [(PyVal.pyNone, PyVal.pyNone)] ∧
    isPyStr PyVal.pyNone = false ∧
    BaseKey.get_data_aux [(PyVal.pyNone, PyVal.pyNone)] =
      .error (.invalidData [(PyVal.pyNone, PyVal.pyNone)]) ∧
    RequestPaginationKey.get_data .unsupported (fun _ => none) =
      .error .unsupportedPaginator :=
  ⟨List.mem_cons_self _ _, rfl,
    claim_C8_data_errors_propagate_uncaught.1 _ _ (List.mem_cons_self _ _) rfl,
    claim_C8_data_errors_propagate_uncaught.2.1 _⟩

/-- Claim C9: with the `HEADERS` setting absent (`None`), whenever the
decorator's timeout argument is `None` or the `TIMEOUT` setting is `None`,
`_get_headers` reaches the membership test `"age" in None` and raises an
uncontrolled `TypeError` at construction time instead of succeeding or
raising one of the library's own errors; and the same membership test on a
`None` header list is the first statement of `_get_response_from_cache`, so
every cache hit under a `None` allow-list raises the same `TypeError`. -/
theorem claim_C9_none_headers_raise_typeerror :
    (∀ (b : Backend) (targ : TimeoutVal) (ts : Option Int),
      targ = .pyNone ∨ ts = none →
      CacheView.get_headers b none targ ts = .error .typeErrorNoneMembership) ∧
    (∀ (timeout ao : Option Int) (eo : Option String) (key : String)
      (e : CachedEntry),
      CacheView.get_response_from_cache none timeout ao eo key e =
        .error .typeErrorNoneMembership) := by
  constructor
  · intro b targ ts h
    simp only [CacheView.get_headers]
    rw [if_pos h]
  · intro _ _ _ _ _
    rfl

/-- Witness for claim C9 with default settings (no `HEADERS`, no `TIMEOUT`)
and a decorator constructed without a timeout argument, plus a hit under a
`None` allow-list. -/
theorem claim_C9_none_headers_raise_typeerror_witness :
    (TimeoutVal.notGiven = TimeoutVal.pyNone ∨ (none : Option Int) = none) ∧
    CacheView.get_headers .locMemCache none .notGiven none =
      .error .typeErrorNoneMembership ∧
    CacheView.get_response_from_cache none (some 60) none none "k"
      ⟨200, [], [], "application/json"⟩ = .error .typeErrorNoneMembership :=
  ⟨Or.inr rfl,
    claim_C9_none_headers_raise_typeerror.1 .locMemCache .notGiven none (Or.inr rfl),
    claim_C9_none_headers_raise_typeerror.2 (some 60) none none "k"
      ⟨200, [], [], "application/json"⟩⟩

/-- Claim C10: pydantic validation of the `TIMEOUT` setting never produces
the `NotGiven` sentinel (the field is declared `int | None = None`), so the
`_get_timeout` branch raising "timeout must be either defined in the settings
or passed as an argument" is unreachable for every argument; omitting the
timeout argument with no `TIMEOUT` setting yields an effective timeout of
`None` instead of an `InvalidArgumentError`. -/
theorem claim_C10_timeout_error_branch_unreachable :
    (∀ (inp : TimeoutSetting) (v : TimeoutVal),
      Settings.parseTIMEOUT inp = .ok v → v ≠ .notGiven) ∧
    (∀ v targ : TimeoutVal, v ≠ .notGiven →
      CacheView.get_timeout v targ ≠
        .error (.invalidArgument
          "timeout must be either defined in the settings or passed as an argument")) ∧
    Settings.parseTIMEOUT .absent = .ok .pyNone ∧
    CacheView.get_timeout .pyNone .notGiven = .ok .pyNone := by
  refine ⟨?_, ?_, rfl, rfl⟩
  · intro inp v h
    cases inp with
    | absent =>
      simp only [Settings.parseTIMEOUT] at h
      injection h with h'
      rw [← h']
      simp
    | givenInt n =>
      by_cases hn : n < 1
      · simp [Settings.parseTIMEOUT, hn] at h
      · simp only [Settings.parseTIMEOUT, if_neg hn] at h
        injection h with h'
        rw [← h']
        simp
    | givenNone => simp [Settings.parseTIMEOUT] at h
    | givenOther => simp [Settings.parseTIMEOUT] at h
  · intro v targ hv
    unfold CacheView.get_timeout
    rw [if_neg (fun h1 => hv h1.2)]
    by_cases h2 : targ ≠ .pyNone ∧ targ ≠ .notGiven ∧ ¬ targ.isInt
    · rw [if_pos h2]
      intro hco
      injection hco with h'
      injection h' with hmsg
      exact absurd hmsg (by decide)
    · rw [if_neg h2]
      by_cases h3 : targ.isNegInt
      · rw [if_pos h3]
        intro hco
        injection hco with h'
        injection h' with hmsg
        exact absurd hmsg (by decide)
      · rw [if_neg h3]
        intro hco
        simp at hco

/-- Witness for claim C10: the default settings parse to a `None` timeout,
which is not the sentinel, and the error branch is indeed not taken. -/
theorem claim_C10_timeout_error_branch_unreachable_witness :
    Settings.parseTIMEOUT .absent = .ok .pyNone ∧
    TimeoutVal.pyNone ≠ TimeoutVal.notGiven ∧
    CacheView.get_timeout .pyNone .notGiven ≠
      .error (.invalidArgument
        "timeout must be either defined in the settings or passed as an argument") :=
  ⟨rfl, claim_C10_timeout_error_branch_unreachable.1 .absent .pyNone rfl,
    claim_C10_timeout_error_branch_unreachable.2.1 .pyNone .notGiven (by decide)⟩

end DrfCaching
